import Mathlib

/-!
# Verification of the cherry web framework (pooulad/cherry)

Shallow embedding of the Go sources `server.go` and `cherry.go` (the
router/middleware facade, the graceful server, context plumbing, response
helpers), together with proofs of the testable properties claimed for them.

Conventions:
* Go strings are Lean `String`s; `strings.Contains` is `goContains`.
* Go `error` values are `Option String` (the message) or `Except String`.
* The concurrent serve loop (`server.serve` in server.go) is embedded as a
  deterministic state machine processing an interleaved trace of the events
  the real loop races on: serve-loop errors, the two stop channels, and the
  `ConnState` callbacks that drive the `sync.WaitGroup` counter.
* Go slices are embedded with their real aliasing semantics (a header
  `aid/len/cap` into a heap of backing arrays, with `append`'s in-place vs
  reallocate behaviour), because `Cherry.Group` copies a slice header.
-/

namespace Cherry

/-- `strings.Contains s sub` from the Go standard library: `sub` occurs as a
contiguous substring of `s`. -/
def goContains (s sub : String) : Bool :=
  decide (sub.toList <:+: s.toList)

/-- The sentinel substring from server.go:
`const useClosedConn = "use of closed network connection"`. -/
def useClosedConn : String := "use of closed network connection"

/-! ## The `http.ConnState` hook installed by `server.serve`

```go
s.Server.ConnState = func(conn net.Conn, state http.ConnState) {
    switch state {
    case http.StateNew:
        s.wg.Add(1)
    case http.StateClosed, http.StateHijacked:
        s.wg.Done()
    }
}
```
-/

/-- The five values of Go's `http.ConnState`. -/
inductive GoConnState
  | stateNew
  | stateActive
  | stateIdle
  | stateHijacked
  | stateClosed
  deriving DecidableEq, Repr

/-- Effect of one `ConnState` callback on the `sync.WaitGroup` counter. -/
def connStateHook (wg : Int) (st : GoConnState) : Int :=
  match st with
  | .stateNew => wg + 1
  | .stateClosed => wg - 1
  | .stateHijacked => wg - 1
  | _ => wg

/-- The waitgroup counter after a trace of connection-state transitions. -/
def wgCount (trace : List GoConnState) : Int :=
  trace.foldl connStateHook 0

/-! ## The serve loop of `server.serve`

The Go loop races three channels (`errChan`, `quit`, `fquit`) while the
`ConnState` hook concurrently moves the waitgroup counter.  We embed one
interleaved execution as a list of `ServeEvent`s folded over a `ServeState`:

* `connNew` / `connDone` are the `wg.Add(1)` / `wg.Done()` callbacks
  (`StateNew`, resp. `StateClosed`/`StateHijacked`);
* `serveErr msg` is `err := <-errChan` — suppressed and looped past when
  `msg` contains `useClosedConn`, otherwise returned as fatal;
* `quitSig` is `<-s.quit`: keep-alives are disabled and the loop enters
  `wg.Wait()` (`draining = true`), returning "server stopped gracefully"
  once the counter is zero;
* `fquitSig` is `<-s.fquit`: returns "server stopped: process killed" at
  once, without draining.

Once `result` is set the function has returned, so further events are
no-ops; while `draining`, the loop sits inside `wg.Wait()` and only the
waitgroup callbacks are observed.
-/

/-- The three ways `server.serve` can return. -/
inductive ServeResult
  | gracefulStop          -- errors.New("server stopped gracefully")
  | forcedStop            -- errors.New("server stopped: process killed")
  | fatal (msg : String)  -- any non-suppressed error from `Server.Serve`
  deriving DecidableEq, Repr

/-- One event observed by the serve loop (or its `ConnState` hook). -/
inductive ServeEvent
  | serveErr (msg : String)
  | quitSig
  | fquitSig
  | connNew
  | connDone
  deriving DecidableEq, Repr

/-- State of one `server` instance during `serve`. -/
structure ServeState where
  keepAlive : Bool
  liveConns : Nat
  draining : Bool
  result : Option ServeResult
  deriving DecidableEq, Repr

/-- Initial state when `serve` is entered. -/
def serveInit : ServeState :=
  { keepAlive := true, liveConns := 0, draining := false, result := none }

/-- One step of the serve loop. -/
def serveStep (s : ServeState) (e : ServeEvent) : ServeState :=
  if s.result.isSome then s
  else
    match e with
    | .connNew => { s with liveConns := s.liveConns + 1 }
    | .connDone =>
        let s' := { s with liveConns := s.liveConns - 1 }
        if s'.draining = true ∧ s'.liveConns = 0 then
          { s' with result := some .gracefulStop }
        else s'
    | .serveErr msg =>
        if s.draining = true then s
        else if goContains msg useClosedConn = true then s
        else { s with result := some (.fatal msg) }
    | .quitSig =>
        if s.draining = true then s
        else
          let s' := { s with keepAlive := false, draining := true }
          if s'.liveConns = 0 then { s' with result := some .gracefulStop }
          else s'
    | .fquitSig =>
        if s.draining = true then s
        else { s with result := some .forcedStop }

/-- Execution of `server.serve` over an interleaved event trace. -/
def serveRun (evs : List ServeEvent) : ServeState :=
  evs.foldl serveStep serveInit

/-! ## The signal coordinator `server.closeNotify` -/

/-- The OS signals relevant to `closeNotify`'s switch statement. -/
inductive GoSignal
  | sigint
  | sigquit
  | sigterm
  | sigkill
  | sigusr2
  deriving DecidableEq, Repr

/-- The observable effect of one arm of `closeNotify`'s switch. -/
structure SigEffect where
  closesListener : Bool
  sendsQuit : Bool
  sendsFquit : Bool
  panicMsg : Option String
  deriving DecidableEq, Repr

/-- The set passed to `signal.Notify` in server.go. -/
def notifiedSignals : List GoSignal :=
  [.sigterm, .sigquit, .sigusr2, .sigint]

/-- The switch of `server.closeNotify` on the received signal. -/
def closeNotifyDispatch (sig : GoSignal) : SigEffect :=
  match sig with
  | .sigterm | .sigquit | .sigint =>
      { closesListener := true, sendsQuit := true, sendsFquit := false, panicMsg := none }
  | .sigkill =>
      { closesListener := true, sendsQuit := false, sendsFquit := true, panicMsg := none }
  | .sigusr2 =>
      { closesListener := false, sendsQuit := false, sendsFquit := false,
        panicMsg := some "USR2 => not implemented" }

/-! ## Request dispatch: `Cherry.makeHttpRouterHandle`

```go
for _, handler := range c.middleware {
    if err := handler(ctx); err != nil {
        c.ErrorHandler(ctx, err)
        return
    }
}
if err := h(ctx); err != nil {
    c.ErrorHandler(ctx, err)
    return
}
```

A cherry `Handler` may mutate the per-request `*Context` and return an
error; we embed it as `σ → σ × Option ε`.  Dispatch additionally records a
trace of which middleware / handler / error-handler invocations happened,
in order, so the short-circuiting behaviour is observable.
-/

/-- A cherry `Handler func(ctx *Context) error`, over an abstract context
state `σ` and error type `ε`: it may update the context and may fail. -/
def HandlerFn (σ ε : Type) := σ → σ × Option ε

/-- Observable invocation events during one dispatch. -/
inductive DispatchEvent (ε : Type)
  | mwRun (i : Nat)
  | handlerRun
  | errorHandlerRun (e : ε)
  deriving DecidableEq, Repr

/-- The dispatch loop of `makeHttpRouterHandle`: run the middleware starting
at index `i`, then the terminal handler; the first error short-circuits to
the centralized error handler. Returns the final context and the trace. -/
def runChain {σ ε : Type} (mws : List (HandlerFn σ ε)) (h : HandlerFn σ ε)
    (i : Nat) (ctx : σ) : σ × List (DispatchEvent ε) :=
  match mws with
  | [] =>
      match h ctx with
      | (ctx', some err) => (ctx', [.handlerRun, .errorHandlerRun err])
      | (ctx', none) => (ctx', [.handlerRun])
  | m :: rest =>
      match m ctx with
      | (ctx', some err) => (ctx', [.mwRun i, .errorHandlerRun err])
      | (ctx', none) =>
          let r := runChain rest h (i + 1) ctx'
          (r.1, .mwRun i :: r.2)

/-- The handle produced by `makeHttpRouterHandle` for middleware list `mws`
and terminal handler `h` (index counting starts at 0). -/
def makeHttpRouterHandle {σ ε : Type} (mws : List (HandlerFn σ ε))
    (h : HandlerFn σ ε) (ctx : σ) : σ × List (DispatchEvent ε) :=
  runChain mws h 0 ctx

/-- The index and error of the first failing middleware (mirroring the Go
loop's evolving context), together with the context it would fail in. -/
def mwFirstErr {σ ε : Type} : List (HandlerFn σ ε) → Nat → σ → Option (Nat × ε)
  | [], _, _ => none
  | m :: rest, i, ctx =>
      match m ctx with
      | (_, some e) => some (i, e)
      | (ctx', none) => mwFirstErr rest (i + 1) ctx'

/-! ## The HTTP response surface

Responses are modelled as the data a handler can set through
`http.ResponseWriter`: a status line (written at most once — we record the
first/explicit `WriteHeader`), response headers, and a body. -/

/-- A recorded HTTP response. -/
structure HttpResponse where
  status : Option Nat
  headers : List (String × String)
  body : String
  deriving DecidableEq, Repr

/-- An empty response recorder. -/
def emptyResponse : HttpResponse :=
  { status := none, headers := [], body := "" }

/-- `http.StatusMultipleChoices` (300). -/
def statusMultipleChoices : Nat := 300

/-- `http.StatusTemporaryRedirect` (307). -/
def statusTemporaryRedirect : Nat := 307

/-- `http.Redirect(w, r, url, code)` from the Go standard library: sets the
`Location` header and writes the status code. -/
def httpRedirect (resp : HttpResponse) (url : String) (code : Nat) : HttpResponse :=
  { resp with headers := ("Location", url) :: resp.headers, status := some code }

/-- `Context.Redirect` from cherry.go:

```go
if code < http.StatusMultipleChoices || code > http.StatusTemporaryRedirect {
    return errors.New("invalid redirect code")
}
http.Redirect(c.response, c.request, url, code)
return nil
```
-/
def contextRedirect (resp : HttpResponse) (url : String) (code : Nat) :
    HttpResponse × Option String :=
  if code < statusMultipleChoices ∨ code > statusTemporaryRedirect then
    (resp, some "invalid redirect code")
  else
    (httpRedirect resp url code, none)

/-- `http.Error(w, error, code)` from the Go standard library: text/plain
content type, the given status code, and the message plus a newline as
body. -/
def httpError (resp : HttpResponse) (msg : String) (code : Nat) : HttpResponse :=
  { resp with
    status := some code
    headers := ("Content-Type", "text/plain; charset=utf-8") ::
      ("X-Content-Type-Options", "nosniff") :: resp.headers
    body := msg ++ "\n" }

/-- The default error handler of cherry.go:

```go
var errorHandler = func(ctx *Context, err error) {
    http.Error(ctx.Response(), err.Error(), http.StatusInternalServerError)
}
```
-/
def defaultErrorHandler (resp : HttpResponse) (errMsg : String) : HttpResponse :=
  httpError resp errMsg 500

/-! ## Access logging: `responseLogger`, `Cherry.ServeHTTP`, `Cherry.writeLog` -/

/-- One operation a handler chain performs on the response writer; only the
data `responseLogger` observes matters (status code, byte count). -/
inductive WriterOp
  | write (n : Nat)
  | writeHeader (code : Nat)
  deriving DecidableEq, Repr

/-- The observation state of `responseLogger` (`status`, `size`), both zero
initially. -/
structure LoggerState where
  status : Nat
  size : Nat
  deriving DecidableEq, Repr

/-- `responseLogger.Write` / `responseLogger.WriteHeader`:

```go
func (l *responseLogger) Write(p []byte) (int, error) {
    if l.status == 0 {
        l.status = http.StatusOK
    }
    size, err := l.c.Write(p)
    l.size += size
    return size, err
}
func (l *responseLogger) WriteHeader(code int) {
    l.c.WriteHeader(code)
    l.status = code
}
```
-/
def loggerStep (l : LoggerState) (op : WriterOp) : LoggerState :=
  match op with
  | .write n =>
      let st := if l.status = 0 then 200 else l.status
      { status := st, size := l.size + n }
  | .writeHeader code => { l with status := code }

/-- The logger observation after the handler chain performed `ops`. -/
def loggerRun (ops : List WriterOp) : LoggerState :=
  ops.foldl loggerStep { status := 0, size := 0 }

/-- The request data `Cherry.writeLog` reads: the host part of `r.Host`,
the optional `r.URL.User` name, method, request URI and protocol.  The
formatted timestamp (`start.Format("02/Jan/2006:15:04:05 -0700")`) is kept
abstract as a string. -/
structure RequestInfo where
  host : String
  username : Option String
  method : String
  requestURI : String
  proto : String
  deriving DecidableEq, Repr

/-- The `username` column of the log line: `"-"` unless `r.URL.User` is
present with a non-empty name. -/
def logUsername (user : Option String) : String :=
  match user with
  | some name => if name = "" then "-" else name
  | none => "-"

/-- One line of `Cherry.writeLog`:
`"%s - %s [%s] \"%s %s %s\" %d %d\n"`. -/
def writeLogLine (r : RequestInfo) (timestamp : String) (status size : Nat) : String :=
  r.host ++ " - " ++ logUsername r.username ++ " [" ++ timestamp ++ "] \"" ++
    r.method ++ " " ++ r.requestURI ++ " " ++ r.proto ++ "\" " ++
    toString status ++ " " ++ toString size ++ "\n"

/-- Result of one `Cherry.ServeHTTP` call: whether the response writer was
wrapped in a `responseLogger`, and the log lines written to the output. -/
structure ServeHTTPResult where
  wrappedWriter : Bool
  logLines : List String
  deriving DecidableEq, Repr

/-- `Cherry.ServeHTTP`: when `HasAccessLog` is set the writer is wrapped in
a `responseLogger`, the router runs the chain against it (performing
`handlerOps` on the writer), and exactly one `writeLog` line is emitted;
otherwise the router runs against the bare writer and nothing is logged. -/
def cherryServeHTTP (hasAccessLog : Bool) (r : RequestInfo) (timestamp : String)
    (handlerOps : List WriterOp) : ServeHTTPResult :=
  if hasAccessLog then
    let l := loggerRun handlerOps
    { wrappedWriter := true
      logLines := [writeLogLine r timestamp l.status l.size] }
  else
    { wrappedWriter := false, logLines := [] }

/-! ## Startup: `Cherry.serve` and the `Serve*` variants

```go
packagePath, _ := os.Executable()
packageDir := filepath.Dir(packagePath)
err := os.Chdir(packageDir)
if err != nil {
    return err
}
fmt.Fprint(c.Output, ...banner...)
if len(files) == 0 { ...; return srv.ListenAndServe() }
if len(files) == 2 { ...; return srv.ListenAndServeTLS(files[0], files[1]) }
return errors.New("invalid server configuration detected")
```
-/

/-- Process-level effects `Cherry.serve` performs, in order. -/
inductive ServeEffect
  | chdir (dir : String)
  | printBanner
  | printListening (addr : String)
  | printListeningTLS (addr : String)
  | listen
  deriving DecidableEq, Repr

/-- The ambient OS facts `Cherry.serve` consults: the directory of the
running executable and whether `os.Chdir` to it fails (with which message). -/
structure OSModel where
  executableDir : String
  chdirError : Option String
  deriving DecidableEq, Repr

/-- `Cherry.serve(s, files...)`: the ordered effect trace and the returned
error, if any.  A failing `os.Chdir` returns its error before any output or
listening happens; on success the cwd change precedes the banner, the
listening line and the listen itself. -/
def cherryServe (osm : OSModel) (addr : String) (files : List String) :
    List ServeEffect × Option String :=
  match osm.chdirError with
  | some e => ([], some e)
  | none =>
      let pre : List ServeEffect := [.chdir osm.executableDir, .printBanner]
      if files.length = 0 then
        (pre ++ [.printListening addr, .listen], none)
      else if files.length = 2 then
        (pre ++ [.printListeningTLS addr, .listen], none)
      else
        (pre, some "invalid server configuration detected")

/-- `Cherry.Serve(port)`: delegates to `serve` with no TLS files. -/
def cherrySrvServe (osm : OSModel) (port : Nat) : List ServeEffect × Option String :=
  cherryServe osm (":" ++ toString port) []

/-- `Cherry.ServeTLS(port, certFile, keyFile)`. -/
def cherrySrvServeTLS (osm : OSModel) (port : Nat) (certFile keyFile : String) :
    List ServeEffect × Option String :=
  cherryServe osm (":" ++ toString port) [certFile, keyFile]

/-- `Cherry.ServeCustom(s)`. -/
def cherrySrvServeCustom (osm : OSModel) (addr : String) :
    List ServeEffect × Option String :=
  cherryServe osm addr []

/-- `Cherry.ServeCustomTLS(s, certFile, keyFile)`. -/
def cherrySrvServeCustomTLS (osm : OSModel) (addr : String) (certFile keyFile : String) :
    List ServeEffect × Option String :=
  cherryServe osm addr [certFile, keyFile]

/-! ## Context plumbing: `Cherry.BindContext` and per-request contexts

```go
if c.context == nil {
    c.context = context.Background()
}
ctx := &Context{ Context: c.context, ... }
```

Carried contexts (`context.Context` values) form an immutable tree:
`Background` plus `WithValue` layers.  A handler may replace the `Context`
field of the per-request record; the application's stored context is only
written by `BindContext` and by the lazy initialization above. -/

/-- A `context.Context` value as used by cherry: the background context or
a `WithValue` wrapper. -/
inductive CtxVal
  | background
  | withValue (parent : CtxVal) (key val : String)
  deriving DecidableEq, Repr

/-- The application-level context slot (`Cherry.context`, nil before
`BindContext` or the first dispatch). -/
structure AppState where
  context : Option CtxVal
  deriving DecidableEq, Repr

/-- `Cherry.BindContext(ctx)`. -/
def bindContext (_app : AppState) (ctx : CtxVal) : AppState :=
  { context := some ctx }

/-- The per-request `Context` record (only the carried context matters for
this development). -/
structure ReqContext where
  carried : CtxVal
  deriving DecidableEq, Repr

/-- The start of `makeHttpRouterHandle`'s closure: lazily initialize the
application context, then build the fresh per-request record from it. -/
def dispatchInit (app : AppState) : AppState × ReqContext :=
  let appCtx := match app.context with
    | none => CtxVal.background
    | some c => c
  ({ context := some appCtx }, { carried := appCtx })

/-- One dispatched request: the handlers (middleware and terminal handler
alike) may each replace the carried context of the request record; the
application state afterwards and the final request record are returned. -/
def runRequest (app : AppState) (handlers : List (CtxVal → CtxVal)) :
    AppState × ReqContext :=
  let r := dispatchInit app
  (r.1, { carried := handlers.foldl (fun c f => f c) r.2.carried })

/-! ## Go slices, `Cherry.Use`, `Cherry.Group`, `Group.Reset`

```go
func (c *Cherry) Use(handlers ...Handler) {
    c.middleware = append(c.middleware, handlers...)
}
func (c *Cherry) Group(prefix string) *Group {
    g := &Group{*c}            // struct copy: copies the SLICE HEADER
    g.Cherry.prefix += prefix
    return g
}
func (g *Group) Reset() *Group {
    g.Cherry.middleware = nil
    return g
}
```

`Group` copies the parent `Cherry` by value, so the parent's and the
group's `middleware` fields are distinct slice headers over the *same*
backing array.  To settle what that means we embed Go slices with their
real semantics: a header (array id, length, capacity) into a heap of
backing arrays, and `append` that writes in place when spare capacity
exists and reallocates (doubling, per the runtime's small-slice growth
rule) otherwise.  Middleware functions are identified by `Nat` labels. -/

/-- A Go slice header: backing array id, length, capacity. -/
structure GoSlice where
  aid : Nat
  len : Nat
  cap : Nat
  deriving DecidableEq, Repr

/-- The `nil` slice. -/
def nilSlice : GoSlice := { aid := 0, len := 0, cap := 0 }

/-- A heap of backing arrays; `arrays[i]` has length equal to the capacity
of the slices that point at it. -/
structure SliceHeap (α : Type) where
  arrays : List (List α)
  deriving DecidableEq, Repr

/-- The elements a slice denotes: the first `len` cells of its array. -/
def heapRead {α : Type} (h : SliceHeap α) (s : GoSlice) : List α :=
  (h.arrays.getD s.aid []).take s.len

/-- The Go runtime's growth rule for small slices (`cap < 256`): double,
or jump straight to the needed capacity when doubling is not enough. -/
def growCap (old need : Nat) : Nat :=
  if need > 2 * old then need else 2 * old

/-- Overwrite `vs.length` cells of `arr` starting at index `i`. -/
def arrWriteRange {α : Type} (arr : List α) (i : Nat) (vs : List α) : List α :=
  arr.take i ++ vs ++ arr.drop (i + vs.length)

/-- `append(s, vs...)`: write in place into spare capacity when it fits,
otherwise allocate a fresh backing array of the grown capacity (padded with
`dflt`) and copy. Returns the updated heap and the new header. -/
def goAppend {α : Type} (dflt : α) (h : SliceHeap α) (s : GoSlice) (vs : List α) :
    SliceHeap α × GoSlice :=
  if s.len + vs.length ≤ s.cap then
    ({ arrays := h.arrays.set s.aid (arrWriteRange (h.arrays.getD s.aid []) s.len vs) },
     { s with len := s.len + vs.length })
  else
    ({ arrays := h.arrays ++
        [heapRead h s ++ vs ++
          List.replicate (growCap s.cap (s.len + vs.length) - (s.len + vs.length)) dflt] },
     { aid := h.arrays.length, len := s.len + vs.length,
       cap := growCap s.cap (s.len + vs.length) })

/-- The mutable state relevant to middleware inheritance: the heap, the
root `Cherry`'s middleware slice, and each created `Group`'s middleware
slice (groups are numbered in creation order). -/
structure World where
  heap : SliceHeap Nat
  parentMw : GoSlice
  groups : List GoSlice
  deriving DecidableEq, Repr

/-- The state after `cherry.New()`: empty heap, nil middleware, no groups. -/
def initWorld : World :=
  { heap := { arrays := [] }, parentMw := nilSlice, groups := [] }

/-- The middleware-related operations of the cherry API. -/
inductive GroupOp
  | parentUse (vs : List Nat)
  | newGroup
  | groupUse (g : Nat) (vs : List Nat)
  | groupReset (g : Nat)
  deriving DecidableEq, Repr

/-- One API call:
`c.Use(vs...)`, `c.Group(prefix)` (the struct copy duplicates the slice
header), `g.Use(vs...)`, or `g.Reset()`. -/
def applyOp (w : World) (op : GroupOp) : World :=
  match op with
  | .parentUse vs =>
      let r := goAppend 0 w.heap w.parentMw vs
      { w with heap := r.1, parentMw := r.2 }
  | .newGroup =>
      { w with groups := w.groups ++ [w.parentMw] }
  | .groupUse g vs =>
      let s := w.groups.getD g nilSlice
      let r := goAppend 0 w.heap s vs
      { w with heap := r.1, groups := w.groups.set g r.2 }
  | .groupReset g =>
      { w with groups := w.groups.set g nilSlice }

/-- A sequence of API calls. -/
def runOps (w : World) (ops : List GroupOp) : World :=
  ops.foldl applyOp w

/-- The middleware chain the root `Cherry` executes at request time. -/
def parentChain (w : World) : List Nat :=
  heapRead w.heap w.parentMw

/-- The middleware chain group `g` executes at request time (the closure in
`makeHttpRouterHandle` reads `c.middleware` when the request arrives). -/
def groupChain (w : World) (g : Nat) : List Nat :=
  heapRead w.heap (w.groups.getD g nilSlice)

/-- A slice header is consistent with the heap: its length is within its
capacity, and (unless it has no capacity) it points at a real array whose
physical length is exactly the capacity. -/
def sliceOk {α : Type} (h : SliceHeap α) (s : GoSlice) : Prop :=
  s.len ≤ s.cap ∧ (0 < s.cap → s.aid < h.arrays.length ∧
    (h.arrays.getD s.aid []).length = s.cap)

instance {α : Type} (h : SliceHeap α) (s : GoSlice) : Decidable (sliceOk h s) := by
  unfold sliceOk
  infer_instance

/-! ## Supporting lemmas: the serve loop -/

/-- After `serve` has returned, further events change nothing. -/
theorem serveStep_frozen (s : ServeState) (e : ServeEvent)
    (h : s.result.isSome = true) : serveStep s e = s := by
  simp [serveStep, h]

/-- Folding further events over a returned state changes nothing. -/
theorem serveFold_frozen (evs : List ServeEvent) (s : ServeState)
    (h : s.result.isSome = true) : evs.foldl serveStep s = s := by
  induction evs with
  | nil => rfl
  | cons e rest ih => rw [List.foldl_cons, serveStep_frozen s e h, ih]

/-- The inductive invariant of the serve loop: draining implies keep-alives
are already disabled; a graceful result implies the counter is zero,
keep-alives are off and the loop was draining; and while draining with live
connections remaining the loop has not returned. -/
def serveInv (s : ServeState) : Prop :=
  (s.draining = true → s.keepAlive = false) ∧
  (s.result = some .gracefulStop →
    s.liveConns = 0 ∧ s.keepAlive = false ∧ s.draining = true) ∧
  (s.draining = true → 0 < s.liveConns → s.result = none)

theorem serveInv_init : serveInv serveInit := by
  refine ⟨?_, ?_, ?_⟩ <;> simp [serveInit]

theorem serveInv_step (s : ServeState) (e : ServeEvent) (hs : serveInv s) :
    serveInv (serveStep s e) := by
  obtain ⟨hka, hgr, hblock⟩ := hs
  by_cases hdone : s.result.isSome = true
  · rw [serveStep_frozen s e hdone]; exact ⟨hka, hgr, hblock⟩
  · have hnone : s.result = none := by
      cases h : s.result with
      | none => rfl
      | some r => rw [h] at hdone; simp at hdone
    cases e with
    | connNew =>
        have hstep : serveStep s .connNew = { s with liveConns := s.liveConns + 1 } := by
          simp [serveStep, hdone]
        rw [hstep]
        refine ⟨hka, ?_, fun _ _ => hnone⟩
        intro h; simp [hnone] at h
    | connDone =>
        by_cases hd : s.draining = true ∧ s.liveConns - 1 = 0
        · have hstep : serveStep s .connDone =
              { s with liveConns := s.liveConns - 1, result := some .gracefulStop } := by
            simp [serveStep, hdone, hd.1, hd.2]
          rw [hstep]
          exact ⟨fun _ => hka hd.1, fun _ => ⟨hd.2, hka hd.1, hd.1⟩,
            fun _ h0 => by simp at h0; omega⟩
        · have hstep : serveStep s .connDone = { s with liveConns := s.liveConns - 1 } := by
            simp [serveStep, hdone, hd]
          rw [hstep]
          refine ⟨hka, ?_, fun _ _ => hnone⟩
          intro h; simp [hnone] at h
    | serveErr msg =>
        by_cases hd : s.draining = true
        · have hstep : serveStep s (.serveErr msg) = s := by simp [serveStep, hdone, hd]
          rw [hstep]; exact ⟨hka, hgr, hblock⟩
        · by_cases hc : goContains msg useClosedConn = true
          · have hstep : serveStep s (.serveErr msg) = s := by
              simp [serveStep, hdone, hd, hc]
            rw [hstep]; exact ⟨hka, hgr, hblock⟩
          · have hstep : serveStep s (.serveErr msg) =
                { s with result := some (.fatal msg) } := by
              simp [serveStep, hdone, hd, hc]
            rw [hstep]
            refine ⟨hka, ?_, fun hdr _ => absurd hdr hd⟩
            intro h; simp at h
    | quitSig =>
        by_cases hd : s.draining = true
        · have hstep : serveStep s .quitSig = s := by simp [serveStep, hdone, hd]
          rw [hstep]; exact ⟨hka, hgr, hblock⟩
        · by_cases hz : s.liveConns = 0
          · have hstep : serveStep s .quitSig =
                { s with
                  keepAlive := false,
                  draining := true,
                  result := some .gracefulStop } := by
              simp [serveStep, hdone, hd, hz]
            rw [hstep]
            exact ⟨fun _ => rfl, fun _ => ⟨hz, rfl, rfl⟩,
              fun _ h0 => by simp at h0; omega⟩
          · have hstep : serveStep s .quitSig =
                { s with keepAlive := false, draining := true } := by
              simp [serveStep, hdone, hd, hz]
            rw [hstep]
            refine ⟨fun _ => rfl, ?_, fun _ _ => hnone⟩
            intro h; simp [hnone] at h
    | fquitSig =>
        by_cases hd : s.draining = true
        · have hstep : serveStep s .fquitSig = s := by simp [serveStep, hdone, hd]
          rw [hstep]; exact ⟨hka, hgr, hblock⟩
        · have hstep : serveStep s .fquitSig = { s with result := some .forcedStop } := by
            simp [serveStep, hdone, hd]
          rw [hstep]
          refine ⟨hka, ?_, fun hdr _ => absurd hdr hd⟩
          intro h; simp at h

theorem serveInv_fold (evs : List ServeEvent) (s : ServeState) (hs : serveInv s) :
    serveInv (evs.foldl serveStep s) := by
  induction evs generalizing s with
  | nil => exact hs
  | cons e rest ih => exact ih _ (serveInv_step s e hs)

theorem serveInv_run (evs : List ServeEvent) : serveInv (serveRun evs) :=
  serveInv_fold evs serveInit serveInv_init

/-- The waitgroup counter is the number of `StateNew` transitions minus the
number of `StateClosed`/`StateHijacked` transitions. -/
theorem wgCount_fold (trace : List GoConnState) (a : Int) :
    trace.foldl connStateHook a =
      a + ((trace.count .stateNew : Int) -
        ((trace.count .stateClosed : Int) + (trace.count .stateHijacked : Int))) := by
  induction trace generalizing a with
  | nil => simp
  | cons st rest ih =>
      rw [List.foldl_cons, ih]
      cases st <;> simp [connStateHook, List.count_cons] <;> omega

/-! ## Supporting lemmas: strings -/

/-- A string contains any of its prefixes extended on the right. -/
theorem goContains_append_right (s t : String) :
    goContains (s ++ t) s = true := by
  simp only [goContains, decide_eq_true_eq]
  exact ⟨[], t.toList, by simp⟩

/-! ## Claim theorems -/

/-- C1: when the graceful-stop signal arrives the serve loop disables
keep-alive and returns the "stopped gracefully" result only once the
live-connection counter — one increment per `StateNew`, one decrement per
`StateClosed`/`StateHijacked` — has reached zero (while positive, the loop
has not returned); the forced-stop signal makes it return the
"stopped: killed" result immediately, with no draining and regardless of
the counter; and at most one stop outcome can occur per instance (after a
result is produced, no further event changes it). -/
theorem serve_graceful_drain_spec (evs evs' : List ServeEvent)
    (trace : List GoConnState) :
    ((serveRun evs).result = some .gracefulStop →
        (serveRun evs).liveConns = 0 ∧ (serveRun evs).keepAlive = false) ∧
    ((serveRun evs).draining = true → 0 < (serveRun evs).liveConns →
        (serveRun evs).result = none) ∧
    (∀ s : ServeState, s.result = none → s.draining = false →
        serveStep s .fquitSig = { s with result := some .forcedStop }) ∧
    ((serveRun evs).result.isSome = true → serveRun (evs ++ evs') = serveRun evs) ∧
    (wgCount trace = (trace.count .stateNew : Int) -
        ((trace.count .stateClosed : Int) + (trace.count .stateHijacked : Int))) := by
  obtain ⟨hka, hgr, hblock⟩ := serveInv_run evs
  refine ⟨fun h => ⟨(hgr h).1, (hgr h).2.1⟩, hblock, ?_, ?_, ?_⟩
  · intro s hres hdr
    simp [serveStep, hres, hdr]
  · intro h
    rw [serveRun, List.foldl_append]
    exact serveFold_frozen evs' _ h
  · simpa [wgCount] using wgCount_fold trace 0

/-- Witness for C1: a concrete run `connNew, quitSig, connDone` ends
gracefully with counter zero and keep-alive off; a concrete forced stop is
immediate; a concrete completed run is unchanged by further events. -/
theorem serve_graceful_drain_spec_witness :
    ((serveRun [.connNew, .quitSig, .connDone]).liveConns = 0 ∧
      (serveRun [.connNew, .quitSig, .connDone]).keepAlive = false) ∧
    serveStep { keepAlive := true, liveConns := 5, draining := false, result := none }
      .fquitSig =
      { keepAlive := true, liveConns := 5, draining := false, result := some .forcedStop } ∧
    serveRun ([.fquitSig] ++ [.quitSig]) = serveRun [.fquitSig] := by
  refine ⟨(serve_graceful_drain_spec [.connNew, .quitSig, .connDone] [] []).1
      (by decide), ?_, ?_⟩
  · exact (serve_graceful_drain_spec [] [] []).2.2.1 _ rfl rfl
  · exact (serve_graceful_drain_spec [.fquitSig] [.quitSig] []).2.2.2.1 (by decide)

/-- C4: the `closeNotify` switch closes the listener and signals
graceful-stop on SIGINT/SIGQUIT/SIGTERM, closes the listener and signals
forced-stop on SIGKILL, and panics with a "not implemented" message on
SIGUSR2 (the reserved reload signal) instead of ignoring it. -/
theorem closeNotify_signal_spec :
    closeNotifyDispatch .sigint =
      { closesListener := true, sendsQuit := true, sendsFquit := false, panicMsg := none } ∧
    closeNotifyDispatch .sigquit =
      { closesListener := true, sendsQuit := true, sendsFquit := false, panicMsg := none } ∧
    closeNotifyDispatch .sigterm =
      { closesListener := true, sendsQuit := true, sendsFquit := false, panicMsg := none } ∧
    closeNotifyDispatch .sigkill =
      { closesListener := true, sendsQuit := false, sendsFquit := true, panicMsg := none } ∧
    closeNotifyDispatch .sigusr2 =
      { closesListener := false, sendsQuit := false, sendsFquit := false,
        panicMsg := some "USR2 => not implemented" } ∧
    goContains "USR2 => not implemented" "not implemented" = true := by
  refine ⟨rfl, rfl, rfl, rfl, rfl, by decide⟩

/-- C5: an error from the serve loop whose message contains
"use of closed network connection" is suppressed — the state is unchanged
and the loop keeps waiting (so a run with the suppressed error equals the
same run without it); any other error, arriving while the loop is still
waiting, is returned immediately as fatal. -/
theorem serve_error_suppression_spec (s : ServeState) (msg : String)
    (evs evs' : List ServeEvent) :
    (goContains msg useClosedConn = true →
        serveStep s (.serveErr msg) = s) ∧
    (goContains msg useClosedConn = true →
        serveRun (evs ++ .serveErr msg :: evs') = serveRun (evs ++ evs')) ∧
    (s.result = none → s.draining = false → goContains msg useClosedConn = false →
        serveStep s (.serveErr msg) = { s with result := some (.fatal msg) }) := by
  have hsupp : ∀ s' : ServeState, goContains msg useClosedConn = true →
      serveStep s' (.serveErr msg) = s' := by
    intro s' hc
    by_cases hdone : s'.result.isSome = true
    · exact serveStep_frozen s' _ hdone
    · by_cases hd : s'.draining = true
      · simp [serveStep, hdone, hd]
      · simp [serveStep, hdone, hd, hc]
  refine ⟨hsupp s, ?_, ?_⟩
  · intro hc
    rw [serveRun, serveRun, List.foldl_append, List.foldl_append, List.foldl_cons,
      hsupp _ hc]
  · intro hres hd hc
    simp [serveStep, hres, hd, hc]

/-- Witness for C5: the concrete accept error produced by closing the
listener is suppressed mid-run, and a concrete unrelated error is fatal. -/
theorem serve_error_suppression_spec_witness :
    serveRun ([.connNew] ++
        .serveErr "accept tcp [::]:3000: use of closed network connection" ::
          [.quitSig, .connDone]) =
      serveRun ([.connNew] ++ [.quitSig, .connDone]) ∧
    serveStep serveInit (.serveErr "listen tcp :3000: address already in use") =
      { serveInit with
        result := some (.fatal "listen tcp :3000: address already in use") } := by
  constructor
  · exact (serve_error_suppression_spec serveInit
      "accept tcp [::]:3000: use of closed network connection"
      [.connNew] [.quitSig, .connDone]).2.1 (by decide)
  · exact (serve_error_suppression_spec serveInit
      "listen tcp :3000: address already in use" [] []).2.2 rfl rfl (by decide)

/-- C6: `Context.Redirect` returns a validation error exactly when the code
lies outside 300–307 (inclusive); inside the range it sets the `Location`
header, writes the status code, and returns no error. -/
theorem redirect_range_spec (resp : HttpResponse) (url : String) (code : Nat) :
    ((contextRedirect resp url code).2.isSome = true ↔ (code < 300 ∨ 307 < code)) ∧
    (300 ≤ code → code ≤ 307 →
      contextRedirect resp url code =
        ({ resp with status := some code, headers := ("Location", url) :: resp.headers }, none)) := by
  constructor
  · by_cases h : code < 300 ∨ 307 < code
    · have hc : code < statusMultipleChoices ∨ code > statusTemporaryRedirect := by
        simpa [statusMultipleChoices, statusTemporaryRedirect] using h
      simp [contextRedirect, hc, h]
    · have hc : ¬(code < statusMultipleChoices ∨ code > statusTemporaryRedirect) := by
        simpa [statusMultipleChoices, statusTemporaryRedirect] using h
      simp [contextRedirect, hc, h]
  · intro h1 h2
    have h : ¬(code < statusMultipleChoices ∨ code > statusTemporaryRedirect) := by
      simp [statusMultipleChoices, statusTemporaryRedirect]; omega
    simp [contextRedirect, h, httpRedirect]

/-- Witness for C6: `redirect(url, 200)` fails with the validation error and
`redirect(url, 301)` issues a 301 with a `Location` header and no error. -/
theorem redirect_range_spec_witness :
    (contextRedirect emptyResponse "/new" 200).2.isSome = true ∧
    contextRedirect emptyResponse "/new" 301 =
      ({ status := some 301, headers := [("Location", "/new")], body := "" },
        none) := by
  constructor
  · exact (redirect_range_spec emptyResponse "/new" 200).1.mpr (by decide)
  · exact (redirect_range_spec emptyResponse "/new" 301).2 (by decide) (by decide)

/-- C7: the default error handler produces a status-500 response with the
plain-text content type whose body contains the error's message. -/
theorem default_error_handler_spec (resp : HttpResponse) (errMsg : String) :
    (defaultErrorHandler resp errMsg).status = some 500 ∧
    ("Content-Type", "text/plain; charset=utf-8") ∈
      (defaultErrorHandler resp errMsg).headers ∧
    goContains (defaultErrorHandler resp errMsg).body errMsg = true := by
  refine ⟨rfl, by simp [defaultErrorHandler, httpError], ?_⟩
  exact goContains_append_right errMsg "\n"

/-! ## Supporting lemmas: the dispatch chain -/

/-- The context after all middleware have run (when none failed). -/
def mwFold {σ ε : Type} : List (HandlerFn σ ε) → σ → σ
  | [], ctx => ctx
  | m :: rest, ctx => mwFold rest (m ctx).1

theorem range_map_shift {α : Type} (f : Nat → α) (n i : Nat) :
    (List.range (n + 1)).map (fun j => f (i + j)) =
      f i :: (List.range n).map (fun j => f (i + 1 + j)) := by
  rw [List.range_succ_eq_map, List.map_cons, List.map_map]
  refine congrArg₂ List.cons (by simp) ?_
  refine List.map_congr_left fun j _ => ?_
  simp only [Function.comp_apply]
  exact congrArg f (by omega)

/-- Trace of `runChain` when no middleware fails: every middleware runs in
index order, then the terminal handler, then (iff the handler errs) the
error handler once. -/
theorem runChain_ok {σ ε : Type} (h : HandlerFn σ ε) (mws : List (HandlerFn σ ε))
    (i : Nat) (ctx : σ) (hok : mwFirstErr mws i ctx = none) :
    (runChain mws h i ctx).2 =
      (List.range mws.length).map (fun j => DispatchEvent.mwRun (i + j)) ++
        DispatchEvent.handlerRun ::
          ((h (mwFold mws ctx)).2.toList.map DispatchEvent.errorHandlerRun) := by
  induction mws generalizing i ctx with
  | nil =>
      rcases hh : h ctx with ⟨c', e?⟩
      cases e? <;> simp [runChain, mwFold, hh]
  | cons m rest ih =>
      rcases hm : m ctx with ⟨c', e?⟩
      cases e? with
      | some e => simp [mwFirstErr, hm] at hok
      | none =>
          have hok' : mwFirstErr rest (i + 1) c' = none := by
            simpa [mwFirstErr, hm] using hok
          have hrec := ih (i + 1) c' hok'
          simp only [runChain, hm, hrec, mwFold, List.length_cons]
          rw [range_map_shift (fun j => DispatchEvent.mwRun j) rest.length i]
          simp

/-- The first failing middleware has an index at least the starting one. -/
theorem mwFirstErr_le {σ ε : Type} (mws : List (HandlerFn σ ε)) (i : Nat) (ctx : σ)
    (j : Nat) (e : ε) (herr : mwFirstErr mws i ctx = some (j, e)) : i ≤ j := by
  induction mws generalizing i ctx with
  | nil => simp [mwFirstErr] at herr
  | cons m rest ih =>
      rcases hm : m ctx with ⟨c', e?⟩
      cases e? with
      | some e0 =>
          have : i = j := by
            have := herr
            simp [mwFirstErr, hm] at this
            exact this.1
          omega
      | none =>
          have herr' : mwFirstErr rest (i + 1) c' = some (j, e) := by
            simpa [mwFirstErr, hm] using herr
          have := ih (i + 1) c' herr'
          omega

/-- Trace of `runChain` when middleware `j` is the first to fail with `e`:
middleware `i..j` run in order, then the error handler once; nothing else. -/
theorem runChain_err {σ ε : Type} (h : HandlerFn σ ε) (mws : List (HandlerFn σ ε))
    (i : Nat) (ctx : σ) (j : Nat) (e : ε)
    (herr : mwFirstErr mws i ctx = some (j, e)) :
    (runChain mws h i ctx).2 =
      (List.range (j + 1 - i)).map (fun k => DispatchEvent.mwRun (i + k)) ++
        [DispatchEvent.errorHandlerRun e] := by
  induction mws generalizing i ctx with
  | nil => simp [mwFirstErr] at herr
  | cons m rest ih =>
      rcases hm : m ctx with ⟨c', e?⟩
      cases e? with
      | some e0 =>
          have hje : i = j ∧ e0 = e := by simpa [mwFirstErr, hm] using herr
          obtain ⟨rfl, rfl⟩ := hje
          simp [runChain, hm, show List.range 1 = [0] from rfl]
      | none =>
          have herr' : mwFirstErr rest (i + 1) c' = some (j, e) := by
            simpa [mwFirstErr, hm] using herr
          have hij : i + 1 ≤ j := mwFirstErr_le rest (i + 1) c' j e herr'
          have hrec := ih (i + 1) c' herr'
          have h1 : j + 1 - i = (j - i) + 1 := by omega
          have h2 : j + 1 - (i + 1) = j - i := by omega
          rw [h2] at hrec
          simp only [runChain, hm, hrec, h1]
          rw [range_map_shift (fun k => DispatchEvent.mwRun k) (j - i) i]
          simp

/-- C2: for every middleware list, terminal handler and request context,
(i) if no middleware fails, the dispatch trace is exactly middleware
`0..n-1` in registration order, then the terminal handler, then — exactly
when the handler returned an error — one error-handler invocation with that
error; (ii) if middleware `j` is the first to fail with error `e`, the
trace is exactly middleware `0..j` in order followed by one error-handler
invocation with `e`: the terminal handler never ran, no middleware after
`j` ran, and the error handler ran exactly once. -/
theorem dispatch_chain_spec {σ ε : Type} [DecidableEq ε]
    (mws : List (HandlerFn σ ε)) (h : HandlerFn σ ε) (ctx : σ) :
    (mwFirstErr mws 0 ctx = none →
      (makeHttpRouterHandle mws h ctx).2 =
        (List.range mws.length).map DispatchEvent.mwRun ++
          DispatchEvent.handlerRun ::
            ((h (mwFold mws ctx)).2.toList.map DispatchEvent.errorHandlerRun)) ∧
    (∀ j e, mwFirstErr mws 0 ctx = some (j, e) →
      (makeHttpRouterHandle mws h ctx).2 =
        (List.range (j + 1)).map DispatchEvent.mwRun ++
          [DispatchEvent.errorHandlerRun e] ∧
      DispatchEvent.handlerRun ∉ (makeHttpRouterHandle mws h ctx).2 ∧
      ((makeHttpRouterHandle mws h ctx).2.count (DispatchEvent.errorHandlerRun e)
        = 1) ∧
      (∀ k, j < k → DispatchEvent.mwRun k ∉ (makeHttpRouterHandle mws h ctx).2)) := by
  constructor
  · intro hok
    simpa using runChain_ok h mws 0 ctx hok
  · intro j e herr
    have htr := runChain_err h mws 0 ctx j e herr
    simp only [Nat.add_zero, Nat.sub_zero] at htr
    have htr' : (makeHttpRouterHandle mws h ctx).2 =
        (List.range (j + 1)).map DispatchEvent.mwRun ++
          [DispatchEvent.errorHandlerRun e] := by
      simpa [makeHttpRouterHandle] using htr
    refine ⟨htr', ?_, ?_, ?_⟩
    · rw [htr']
      simp
    · rw [htr', List.count_append]
      have h0 : ((List.range (j + 1)).map DispatchEvent.mwRun).count
          (DispatchEvent.errorHandlerRun e) = 0 := by
        rw [List.count_eq_zero]
        simp
      rw [h0]
      simp
    · intro k hk
      rw [htr']
      simp only [List.mem_append, List.mem_map, List.mem_range, List.mem_singleton]
      rintro (⟨j', hj', heq⟩ | hcontra)
      · have : j' = k := by
          injection heq
        omega
      · simp at hcontra

/-- Witness for C2: with three concrete middleware over `σ = Nat`,
`ε = String`, where the second fails, exactly middleware 0 and 1 run and
the error handler runs once with "boom". -/
theorem dispatch_chain_spec_witness :
    (makeHttpRouterHandle
        [fun n => (n + 1, none), fun n => (n * 2, some "boom"),
          fun n => (n + 5, none)]
        (fun n : Nat => (n, (none : Option String))) 0).2 =
      [DispatchEvent.mwRun 0, DispatchEvent.mwRun 1,
        DispatchEvent.errorHandlerRun "boom"] := by
  have hspec := (dispatch_chain_spec
    [fun n => (n + 1, none), fun n => (n * 2, some "boom"), fun n => (n + 5, none)]
    (fun n : Nat => (n, (none : Option String))) 0).2 1 "boom" (by
      simp [mwFirstErr])
  rw [hspec.1]
  rfl

/-! ## Supporting lemmas: the response logger -/

/-- Total bytes a sequence of writer operations writes. -/
def writtenBytes : List WriterOp → Nat
  | [] => 0
  | .write n :: rest => n + writtenBytes rest
  | .writeHeader _ :: rest => writtenBytes rest

theorem loggerFold_size (ops : List WriterOp) (l : LoggerState) :
    (ops.foldl loggerStep l).size = l.size + writtenBytes ops := by
  induction ops generalizing l with
  | nil => simp [writtenBytes]
  | cons op rest ih =>
      rw [List.foldl_cons, ih]
      cases op with
      | write n =>
          simp only [loggerStep, writtenBytes]
          omega
      | writeHeader code =>
          simp only [loggerStep, writtenBytes]

/-- C8: with access logging enabled, the response writer is wrapped and
exactly one line is emitted, in the common log format
`host - user [timestamp] "METHOD uri proto" status size`, carrying the
logger's observed status and size; the observed size is the total number of
bytes the chain wrote, and a chain ending in `WriteHeader(code)` is
observed with status `code`.  With logging disabled, the writer is never
wrapped and no line is emitted. -/
theorem access_log_spec (enabled : Bool) (r : RequestInfo) (ts : String)
    (ops : List WriterOp) (code : Nat) :
    (enabled = true →
      (cherryServeHTTP enabled r ts ops).wrappedWriter = true ∧
      (cherryServeHTTP enabled r ts ops).logLines =
        [writeLogLine r ts (loggerRun ops).status (loggerRun ops).size] ∧
      (cherryServeHTTP enabled r ts ops).logLines.length = 1) ∧
    (enabled = false →
      (cherryServeHTTP enabled r ts ops).wrappedWriter = false ∧
      (cherryServeHTTP enabled r ts ops).logLines = []) ∧
    ((loggerRun ops).size = writtenBytes ops) ∧
    ((loggerRun (ops ++ [.writeHeader code])).status = code) ∧
    (writeLogLine r ts (loggerRun ops).status (loggerRun ops).size =
      r.host ++ " - " ++ logUsername r.username ++ " [" ++ ts ++ "] \"" ++
        r.method ++ " " ++ r.requestURI ++ " " ++ r.proto ++ "\" " ++
        toString (loggerRun ops).status ++ " " ++
          toString (loggerRun ops).size ++ "\n") := by
  refine ⟨?_, ?_, ?_, ?_, rfl⟩
  · intro h
    subst h
    exact ⟨rfl, rfl, rfl⟩
  · intro h
    subst h
    exact ⟨rfl, rfl⟩
  · simpa using loggerFold_size ops { status := 0, size := 0 }
  · rw [loggerRun, List.foldl_append]
    rfl

/-- Witness for C8: a concrete 404 request with logging on yields exactly
the expected common-log line; with logging off, the writer is not wrapped. -/
theorem access_log_spec_witness :
    (cherryServeHTTP true
        { host := "example.com", username := none, method := "GET",
          requestURI := "/x", proto := "HTTP/1.1" }
        "10/Oct/2026:12:00:00 +0000" [.writeHeader 404, .write 19]).logLines =
      ["example.com - - [10/Oct/2026:12:00:00 +0000] \"GET /x HTTP/1.1\" 404 19\n"] ∧
    (cherryServeHTTP false
        { host := "example.com", username := none, method := "GET",
          requestURI := "/x", proto := "HTTP/1.1" }
        "ts" [.write 3]).wrappedWriter = false := by
  constructor
  · rw [((access_log_spec true
      { host := "example.com", username := none, method := "GET",
        requestURI := "/x", proto := "HTTP/1.1" }
      "10/Oct/2026:12:00:00 +0000" [.writeHeader 404, .write 19] 0).1 rfl).2.1]
    rfl
  · exact ((access_log_spec false
      { host := "example.com", username := none, method := "GET",
        requestURI := "/x", proto := "HTTP/1.1" }
      "ts" [.write 3] 0).2.1 rfl).1

/-- C9: every `serve` call (and hence every `Serve`/`ServeTLS`/
`ServeCustom`/`ServeCustomTLS` variant, which all delegate to it) changes
the process working directory to the executable's directory as its first
effect, before the banner and before listening; if that change fails, the
error is returned with no effect performed — in particular nothing is
served. -/
theorem serve_chdir_spec (osm : OSModel) (addr : String) (files : List String)
    (port : Nat) (cert key : String) :
    (osm.chdirError = none →
      (cherryServe osm addr files).1.take 2 =
        [.chdir osm.executableDir, .printBanner]) ∧
    (∀ e, osm.chdirError = some e → cherryServe osm addr files = ([], some e)) ∧
    (osm.chdirError ≠ none → ServeEffect.listen ∉ (cherryServe osm addr files).1) ∧
    cherrySrvServe osm port = cherryServe osm (":" ++ toString port) [] ∧
    cherrySrvServeTLS osm port cert key =
      cherryServe osm (":" ++ toString port) [cert, key] ∧
    cherrySrvServeCustom osm addr = cherryServe osm addr [] ∧
    cherrySrvServeCustomTLS osm addr cert key = cherryServe osm addr [cert, key] := by
  refine ⟨?_, ?_, ?_, rfl, rfl, rfl, rfl⟩
  · intro h
    simp only [cherryServe, h]
    split_ifs <;> rfl
  · intro e he
    simp [cherryServe, he]
  · intro h
    cases hc : osm.chdirError with
    | none => exact absurd hc h
    | some e => simp [cherryServe, hc]

/-- Witness for C9: with a healthy `Chdir`, the first two effects of a
plain `Serve` are the directory change and the banner; with a failing
`Chdir`, serve returns the error having performed no effect. -/
theorem serve_chdir_spec_witness :
    (cherryServe { executableDir := "/opt/app", chdirError := none }
        ":3000" []).1.take 2 =
      [.chdir "/opt/app", .printBanner] ∧
    cherryServe { executableDir := "/opt/app", chdirError := some "permission denied" }
        ":3000" [] =
      ([], some "permission denied") := by
  constructor
  · exact (serve_chdir_spec { executableDir := "/opt/app", chdirError := none }
      ":3000" [] 0 "" "").1 rfl
  · exact (serve_chdir_spec
      { executableDir := "/opt/app", chdirError := some "permission denied" }
      ":3000" [] 0 "" "").2.1 "permission denied" rfl

/-- C10: the per-request record's carried context is initialized from the
application's stored context (background if none was bound — and the store
is lazily set to background by the first dispatch); handlers replacing the
request record's context never change the application's stored context, so
the state after a dispatch is independent of what the handlers did, and a
later request starts from the same stored context regardless of an earlier
request's mutations. -/
theorem context_isolation_spec (app : AppState) (c : CtxVal)
    (hs hs1 hs2 : List (CtxVal → CtxVal)) :
    ((dispatchInit app).2.carried = app.context.getD .background) ∧
    ((runRequest app hs).1 = { context := some (app.context.getD .background) }) ∧
    ((dispatchInit (runRequest app hs1).1).2.carried =
      app.context.getD .background) ∧
    ((runRequest (runRequest app hs1).1 hs2).1 = (runRequest app hs1).1) ∧
    (app.context = none → (runRequest app hs).1.context = some .background) ∧
    ((dispatchInit (bindContext app c)).2.carried = c) := by
  refine ⟨?_, ?_, ?_, ?_, ?_, rfl⟩ <;>
    cases happ : app.context <;>
      simp [dispatchInit, runRequest, bindContext, happ]

/-- Witness for C10: an application with no bound context lazily stores the
background context on first dispatch, even when the request's handlers
attached values. -/
theorem context_isolation_spec_witness :
    (runRequest { context := none }
        [fun c => .withValue c "k" "v"]).1.context = some .background := by
  exact (context_isolation_spec { context := none } .background
    [fun c => .withValue c "k" "v"] [] []).2.2.2.2.1 rfl

/-! ## Supporting lemmas: slice heaps -/

/-- Writing another array leaves a slice's denotation unchanged. -/
theorem heapRead_set_ne {α : Type} (h : SliceHeap α) (aid : Nat) (x : List α)
    (s : GoSlice) (hne : s.aid ≠ aid) :
    heapRead { arrays := h.arrays.set aid x } s = heapRead h s := by
  unfold heapRead
  rw [List.getD_eq_getElem?_getD, List.getD_eq_getElem?_getD,
    List.getElem?_set_ne (Ne.symm hne)]

/-- Allocating a fresh array leaves every existing slice's denotation
unchanged. -/
theorem heapRead_alloc {α : Type} (h : SliceHeap α) (x : List α) (s : GoSlice)
    (hlt : s.aid < h.arrays.length) :
    heapRead { arrays := h.arrays ++ [x] } s = heapRead h s := by
  unfold heapRead
  rw [List.getD_eq_getElem?_getD, List.getD_eq_getElem?_getD,
    List.getElem?_append_left hlt]

/-- An in-place write at index `i` and beyond does not change the first
`n ≤ i` elements. -/
theorem take_arrWriteRange {α : Type} (arr : List α) (i n : Nat) (vs : List α)
    (hn : n ≤ i) (hi : i ≤ arr.length) :
    (arrWriteRange arr i vs).take n = arr.take n := by
  unfold arrWriteRange
  rw [List.append_assoc, List.take_append_of_le_length, List.take_take]
  · congr 1
    omega
  · rw [List.length_take]
    omega

/-- An in-place write into one array, at positions from `p.len` on, leaves
unchanged the denotation of any slice of the same array no longer than
`p.len`. -/
theorem heapRead_set_same {α : Type} (h : SliceHeap α) (p : GoSlice) (vs : List α)
    (s : GoSlice) (hsame : s.aid = p.aid) (hslen : s.len ≤ p.len)
    (hlt : p.aid < h.arrays.length)
    (hplen : p.len ≤ (h.arrays.getD p.aid []).length) :
    heapRead
      { arrays := h.arrays.set p.aid (arrWriteRange (h.arrays.getD p.aid []) p.len vs) }
      s = heapRead h s := by
  unfold heapRead
  simp only [List.getD_eq_getElem?_getD] at hplen ⊢
  rw [hsame, List.getElem?_set_eq_of_lt _ hlt, Option.getD_some]
  exact take_arrWriteRange _ _ _ _ hslen hplen

/-- `getD` at the length of a one-element extension reads that element. -/
theorem concat_getD_length {α : Type} (l : List α) (x d : α) :
    (l ++ [x]).getD l.length d = x := by
  rw [List.getD_eq_getElem?_getD, List.getElem?_concat_length]
  rfl

/-- `parentUse` leaves a group's denoted chain unchanged as long as the
group's header does not extend into the parent's spare capacity: it points
at a different backing array, or its length is at most the parent's. -/
theorem groupChain_parentUse (w : World) (g : Nat) (vs : List Nat)
    (hp : sliceOk w.heap w.parentMw)
    (hg : sliceOk w.heap (w.groups.getD g nilSlice))
    (hcond : (w.groups.getD g nilSlice).aid ≠ w.parentMw.aid ∨
      (w.groups.getD g nilSlice).len ≤ w.parentMw.len) :
    groupChain (applyOp w (.parentUse vs)) g = groupChain w g := by
  have h1 : groupChain (applyOp w (.parentUse vs)) g =
      heapRead (goAppend 0 w.heap w.parentMw vs).1 (w.groups.getD g nilSlice) := rfl
  have h2 : groupChain w g = heapRead w.heap (w.groups.getD g nilSlice) := rfl
  rw [h1, h2]
  by_cases hzero : (w.groups.getD g nilSlice).len = 0
  · unfold heapRead
    rw [hzero]
    rfl
  · have hglen : 0 < (w.groups.getD g nilSlice).cap :=
      lt_of_lt_of_le (Nat.pos_of_ne_zero hzero) hg.1
    obtain ⟨hgaid, hgcap⟩ := hg.2 hglen
    unfold goAppend
    by_cases hfit : w.parentMw.len + vs.length ≤ w.parentMw.cap
    · rw [if_pos hfit]
      rcases hcond with hne | hlen
      · exact heapRead_set_ne _ _ _ _ hne
      · by_cases haid : (w.groups.getD g nilSlice).aid = w.parentMw.aid
        · have hpcappos : 0 < w.parentMw.cap := by
            have := hg.1
            omega
          obtain ⟨hpaid, hpcap⟩ := hp.2 hpcappos
          exact heapRead_set_same w.heap w.parentMw vs _ haid hlen hpaid
            (by rw [hpcap]; exact hp.1)
        · exact heapRead_set_ne _ _ _ _ haid
    · rw [if_neg hfit]
      exact heapRead_alloc _ _ _ hgaid

/-- The chain a group denotes at the moment of its creation is the parent's
chain: the struct copy duplicates the slice header. -/
theorem groupChain_newGroup (w : World) :
    groupChain (applyOp w .newGroup) w.groups.length = parentChain w := by
  have h1 : groupChain (applyOp w .newGroup) w.groups.length =
      heapRead w.heap ((w.groups ++ [w.parentMw]).getD w.groups.length nilSlice) := rfl
  rw [h1, concat_getD_length]
  rfl

/-- `Reset` empties the group's own chain. -/
theorem groupChain_reset_self (w : World) (g : Nat) :
    groupChain (applyOp w (.groupReset g)) g = [] := by
  have h1 : groupChain (applyOp w (.groupReset g)) g =
      heapRead w.heap ((w.groups.set g nilSlice).getD g nilSlice) := rfl
  rw [h1]
  have hnil : (w.groups.set g nilSlice).getD g nilSlice = nilSlice := by
    rw [List.getD_eq_getElem?_getD]
    by_cases hlt : g < w.groups.length
    · rw [List.getElem?_set_eq_of_lt _ hlt]
      rfl
    · rw [List.getElem?_eq_none (by rw [List.length_set]; omega)]
      rfl
  rw [hnil]
  rfl

/-- `Reset` on one group does not change any other group's chain. -/
theorem groupChain_reset_other (w : World) (g g' : Nat) (hne : g' ≠ g) :
    groupChain (applyOp w (.groupReset g)) g' = groupChain w g' := by
  have h1 : groupChain (applyOp w (.groupReset g)) g' =
      heapRead w.heap ((w.groups.set g nilSlice).getD g' nilSlice) := rfl
  rw [h1]
  have h2 : (w.groups.set g nilSlice).getD g' nilSlice = w.groups.getD g' nilSlice := by
    rw [List.getD_eq_getElem?_getD, List.getD_eq_getElem?_getD,
      List.getElem?_set_ne (Ne.symm hne)]
  rw [h2]
  rfl

/-- A group that never appends after its creation still denotes the
parent's creation-time chain after a later parent append. -/
theorem groupChain_newGroup_parentUse (w : World) (vs : List Nat)
    (hp : sliceOk w.heap w.parentMw) :
    groupChain (applyOp (applyOp w .newGroup) (.parentUse vs)) w.groups.length =
      parentChain w := by
  have hdr : (applyOp w .newGroup).groups.getD w.groups.length nilSlice =
      w.parentMw := by
    show (w.groups ++ [w.parentMw]).getD w.groups.length nilSlice = w.parentMw
    exact concat_getD_length _ _ _
  have hmain := groupChain_parentUse (applyOp w .newGroup) w.groups.length vs
    hp (by rw [hdr]; exact hp) (by rw [hdr]; exact Or.inr le_rfl)
  rw [hmain]
  exact groupChain_newGroup w

/-! ## C3: claim theorems -/

/-- Counterexample to C3: `c.Use(1); c.Use(2); c.Use(3)` leaves the parent
with length 3 and capacity 4; `g := c.Group(p)` copies that slice header;
`g.Use(10)` writes 10 into the shared spare cell, after which the group
executes `[1, 2, 3, 10]`; the parent's later `c.Use(20)` overwrites that
same cell, after which the group executes `[1, 2, 3, 20]` — a mutation of
the parent's middleware list after group creation retroactively changed the
middleware the group executes, and the group's chain is no longer the
creation-time copy followed by its own additions. -/
theorem group_shared_capacity_counterexample :
    groupChain (runOps initWorld
      [.parentUse [1], .parentUse [2], .parentUse [3], .newGroup,
        .groupUse 0 [10]]) 0 = [1, 2, 3, 10] ∧
    groupChain (runOps initWorld
      [.parentUse [1], .parentUse [2], .parentUse [3], .newGroup,
        .groupUse 0 [10], .parentUse [20]]) 0 = [1, 2, 3, 20] ∧
    groupChain (runOps initWorld
      [.parentUse [1], .parentUse [2], .parentUse [3], .newGroup,
        .groupUse 0 [10], .parentUse [20]]) 0 ≠ [1, 2, 3] ++ [10] := by
  refine ⟨by decide, by decide, by decide⟩

/-- C3 (amended): a Group's middleware slice header is copied from the
parent at creation, so at that moment the group's chain equals the
parent's; `Reset` empties only that group's chain, leaving the parent's and
every other group's chain unchanged; and a later parent `Use` leaves the
group's executed chain unchanged *provided* the group's slice does not
extend into spare capacity shared with the parent (different backing array,
or group length at most parent length) — in particular a group that has not
itself appended since creation is never retroactively affected.  (Without
that proviso the claim fails; see the counterexample.) -/
theorem group_middleware_amended_spec (w : World) (g g' : Nat) (vs : List Nat) :
    (groupChain (applyOp w .newGroup) w.groups.length = parentChain w) ∧
    (groupChain (applyOp w (.groupReset g)) g = []) ∧
    (parentChain (applyOp w (.groupReset g)) = parentChain w) ∧
    (g' ≠ g → groupChain (applyOp w (.groupReset g)) g' = groupChain w g') ∧
    (sliceOk w.heap w.parentMw → sliceOk w.heap (w.groups.getD g nilSlice) →
      ((w.groups.getD g nilSlice).aid ≠ w.parentMw.aid ∨
        (w.groups.getD g nilSlice).len ≤ w.parentMw.len) →
      groupChain (applyOp w (.parentUse vs)) g = groupChain w g) ∧
    (sliceOk w.heap w.parentMw →
      groupChain (applyOp (applyOp w .newGroup) (.parentUse vs)) w.groups.length =
        parentChain w) := by
  exact ⟨groupChain_newGroup w, groupChain_reset_self w g, rfl,
    fun hne => groupChain_reset_other w g g' hne,
    fun hp hg hcond => groupChain_parentUse w g vs hp hg hcond,
    fun hp => groupChain_newGroup_parentUse w vs hp⟩

/-- Witness for the amended C3: concretely, a group created after
`c.Use(1); c.Use(2); c.Use(3)` that never appends still executes
`[1, 2, 3]` after the parent's later `c.Use(20)`. -/
theorem group_middleware_amended_spec_witness :
    groupChain (applyOp (applyOp (runOps initWorld
      [.parentUse [1], .parentUse [2], .parentUse [3]]) .newGroup)
      (.parentUse [20])) 0 = [1, 2, 3] := by
  have h := (group_middleware_amended_spec (runOps initWorld
    [.parentUse [1], .parentUse [2], .parentUse [3]]) 0 0 [20]).2.2.2.2.2
    (by decide)
  simpa using h

end Cherry
